import Mathlib

/-!
Verification of the event-sourced aggregate store of the `intl-svc-test-task`
repository.  The Rust source is shallowly embedded: `src/cqrs/store.rs`
(stored-event lists, snapshots, consistency checking), `src/cqrs/mem_store.rs`
(the in-memory event store), `src/gen.rs` and `src/base64.rs` (the slug
generator and its base64 encoder), `src/string_based_type.rs` (the
owned/borrowed identifier pair) and the concrete `Stats` aggregate of
`src/lib.rs`.  Machine integers (`u64` event indices, the `u16` bump, bytes)
are modelled as `Nat`, with explicit `% 2 ^ w` reductions where the source
performs wrapping conversions.
-/

namespace Shortener

/-- Error taxonomy of `EventStoreError` in `src/cqrs/store.rs`. -/
inductive EventStoreError where
  | invalidInitialEvent
  | aggregateIsNotExist
  | inconsistentEventAggregateId
  | inconsistentEventIndex
  | emptyEventList
  | storageError (msg : String)
deriving DecidableEq

/-- `StoredEvent` of `src/cqrs/store.rs`: an event tagged with its owning
aggregate identifier and its zero-based index (`EventIndex = u64`). -/
structure StoredEvent (Event Id : Type) where
  aggregate_id : Id
  index : Nat
  event : Event
deriving DecidableEq

/-- `Snapshot` of `src/cqrs/store.rs`: aggregate state plus the event index it
reflects. -/
structure Snapshot (Agg : Type) where
  aggregate : Agg
  index : Nat
deriving DecidableEq

/-- The operations the `Aggregate` trait of `src/cqrs.rs` provides to the
store: `A::default()`, `apply`, `aggregate_id`, and emptiness of an identifier
(`IsEmptyAggregateId` in `src/cqrs/aggregate_id.rs`, text emptiness). -/
structure AggOps (Agg Event Id : Type) where
  dflt : Agg
  apply : Agg → Event → Agg
  aggregateId : Agg → Id
  idIsEmpty : Id → Bool

variable {Agg Event Id : Type}

/-- `StoredEventRawList::append_unchecked`: push a stored event whose index is
the current length; returns the stored event together with the new list. -/
def rawAppendUnchecked (l : List (StoredEvent Event Id)) (id : Id) (e : Event) :
    StoredEvent Event Id × List (StoredEvent Event Id) :=
  let se : StoredEvent Event Id := ⟨id, l.length, e⟩
  (se, l ++ [se])

/-- `StoredEventRawList::initial_aggregate_id`: the first event's identifier
when the list is non-empty, else the identifier read back after applying the
candidate initial event to a default aggregate. -/
def initialAggregateId (ops : AggOps Agg Event Id)
    (l : List (StoredEvent Event Id)) (e : Event) : Id :=
  match l with
  | first :: _ => first.aggregate_id
  | [] => ops.aggregateId (ops.apply ops.dflt e)

/-- `StoredEventRawList::append`. -/
def rawAppend (ops : AggOps Agg Event Id) (l : List (StoredEvent Event Id))
    (e : Event) :
    Except EventStoreError (StoredEvent Event Id × List (StoredEvent Event Id)) :=
  let id := initialAggregateId ops l e
  if ops.idIsEmpty id then .error .invalidInitialEvent
  else .ok (rawAppendUnchecked l id e)

/-- The loop body of `append_all`: `append_unchecked` each event in order
under the fixed identifier. -/
def appendAllUnchecked (l : List (StoredEvent Event Id)) (id : Id)
    (events : List Event) : List (StoredEvent Event Id) :=
  events.foldl (fun acc e => (rawAppendUnchecked acc id e).2) l

/-- The events `append_all` creates: the given events under one identifier at
consecutive indices starting from `n`. -/
def withIndicesFrom (id : Id) (n : Nat) : List Event → List (StoredEvent Event Id)
  | [] => []
  | e :: rest => ⟨id, n, e⟩ :: withIndicesFrom id (n + 1) rest

theorem appendAllUnchecked_eq (l : List (StoredEvent Event Id)) (id : Id)
    (events : List Event) :
    appendAllUnchecked l id events = l ++ withIndicesFrom id l.length events := by
  induction events generalizing l with
  | nil => simp [appendAllUnchecked, withIndicesFrom]
  | cons e rest ih =>
    simp only [appendAllUnchecked, List.foldl_cons, withIndicesFrom]
    have h := ih (l ++ [(⟨id, l.length, e⟩ : StoredEvent Event Id)])
    simp only [appendAllUnchecked] at h
    simpa [rawAppendUnchecked, List.append_assoc] using h

theorem withIndicesFrom_length (id : Id) (n : Nat) (events : List Event) :
    (withIndicesFrom id n events : List (StoredEvent Event Id)).length
      = events.length := by
  induction events generalizing n with
  | nil => rfl
  | cons e rest ih => simp [withIndicesFrom, ih]

/-- `StoredEventList` of `src/cqrs/store.rs`: a finalized stored-event list,
non-empty by construction. -/
def StoredEventList (Event Id : Type) := { l : List (StoredEvent Event Id) // l ≠ [] }

/-- `StoredEventRawList::append_all`: empty input fails with `EmptyEventList`;
an empty derived identifier fails with `InvalidInitialEvent`; otherwise all
events are appended under the derived identifier. -/
def rawAppendAll (ops : AggOps Agg Event Id) (l : List (StoredEvent Event Id))
    (events : List Event) : Except EventStoreError (StoredEventList Event Id) :=
  match h : events with
  | first :: rest =>
    let id := initialAggregateId ops l first
    if ops.idIsEmpty id then .error .invalidInitialEvent
    else .ok ⟨appendAllUnchecked l id (first :: rest), by
      rw [appendAllUnchecked_eq]
      intro hcontra
      have := congrArg List.length hcontra
      simp [withIndicesFrom_length, withIndicesFrom] at this⟩
  | [] => .error .emptyEventList

/-- `StoredEventList::aggregate_id` (via `aggregate_id_unchecked`): the first
event's identifier. -/
def listAggregateId (L : StoredEventList Event Id) : Id :=
  (L.val.head L.prop).aggregate_id

/-- The fold in `snapshot_unchecked`: apply every stored event in order. -/
def foldApply (ops : AggOps Agg Event Id) (acc : Agg)
    (l : List (StoredEvent Event Id)) : Agg :=
  l.foldl (fun a e => ops.apply a e.event) acc

/-- `StoredEventRawList::snapshot_unchecked`. -/
def snapshotUnchecked (ops : AggOps Agg Event Id)
    (l : List (StoredEvent Event Id)) : Snapshot Agg :=
  ⟨foldApply ops ops.dflt l, l.length - 1⟩

/-- `StoredEventRawList::snapshot`: `None` on an empty list. -/
def rawSnapshot (ops : AggOps Agg Event Id) (l : List (StoredEvent Event Id)) :
    Option (Snapshot Agg) :=
  if l.length < 1 then none else some (snapshotUnchecked ops l)

/-- The loop of `snapshot_at_unchecked`: apply events in order, stopping right
after the event whose stored index equals the target. -/
def snapshotAtGo (ops : AggOps Agg Event Id) (target : Nat) (acc : Agg) :
    List (StoredEvent Event Id) → Agg
  | [] => acc
  | e :: rest =>
    let acc2 := ops.apply acc e.event
    if e.index = target then acc2 else snapshotAtGo ops target acc2 rest

/-- `StoredEventRawList::snapshot_at_unchecked`. -/
def snapshotAtUnchecked (ops : AggOps Agg Event Id)
    (l : List (StoredEvent Event Id)) (target : Nat) : Snapshot Agg :=
  ⟨snapshotAtGo ops target ops.dflt l, target⟩

/-- `StoredEventRawList::snapshot_at`: `None` when the list is empty or its
last position is below the target. -/
def rawSnapshotAt (ops : AggOps Agg Event Id) (l : List (StoredEvent Event Id))
    (target : Nat) : Option (Snapshot Agg) :=
  if l.length < 1 ∨ l.length - 1 < target then none
  else some (snapshotAtUnchecked ops l target)

/-- `StoredEventList::snapshot` (finalized list, no emptiness check). -/
def listSnapshot (ops : AggOps Agg Event Id) (L : StoredEventList Event Id) :
    Snapshot Agg :=
  snapshotUnchecked ops L.val

/-- `StoredEventList::snapshot_at` (finalized list, no bound check). -/
def listSnapshotAt (ops : AggOps Agg Event Id) (L : StoredEventList Event Id)
    (target : Nat) : Snapshot Agg :=
  snapshotAtUnchecked ops L.val target

/-- The loop of `check_consistency`, carrying the first event's identifier and
the running expected index.  As in the source, the error is reported when an
event's identifier EQUALS the remembered first identifier. -/
def checkConsistencyGo [DecidableEq Id] (aggId : Id) :
    Nat → List (StoredEvent Event Id) → Except EventStoreError Unit
  | _, [] => .ok ()
  | idx, e :: rest =>
    if e.aggregate_id = aggId then .error .inconsistentEventAggregateId
    else if e.index ≠ idx then .error .inconsistentEventIndex
    else checkConsistencyGo aggId (idx + 1) rest

/-- `StoredEventRawList::check_consistency`. -/
def checkConsistency [DecidableEq Id] (l : List (StoredEvent Event Id)) :
    Except EventStoreError Unit :=
  match l with
  | [] => .ok ()
  | first :: _ => checkConsistencyGo first.aggregate_id 0 l

/-! ### In-memory event store (`src/cqrs/mem_store.rs`)

The backing `HashMap<A::Id, StoredEventList<A>>` is modelled as a function
from identifiers to optional stored-event lists; the surrounding
`Arc<RwLock<...>>` only serialises access and is irrelevant to the
sequential semantics of each operation. -/

/-- The map held by `MemEventStore`. -/
def MemStore (Event Id : Type) := Id → Option (StoredEventList Event Id)

/-- `MemEventStore::fetch`: absent or present-but-empty entries report
`AggregateIsNotExist`. -/
def memFetch (m : MemStore Event Id) (id : Id) :
    Except EventStoreError (StoredEventList Event Id) :=
  match m id with
  | some v => if v.val.isEmpty then .error .aggregateIsNotExist else .ok v
  | none => .error .aggregateIsNotExist

/-- `MemEventStore::is_exist`: `contains_key`. -/
def memIsExist (m : MemStore Event Id) (id : Id) : Bool :=
  (m id).isSome

/-- `MemEventStore::commit`: insert the list under its own aggregate
identifier, overwriting any previous entry. -/
def memCommit [DecidableEq Id] (m : MemStore Event Id)
    (L : StoredEventList Event Id) : MemStore Event Id :=
  fun k => if k = listAggregateId L then some L else m k

/-- `MemEventStore::remove`: read the entry (absence reports
`AggregateIsNotExist` and leaves the map alone), then delete it; returns the
result together with the resulting map. -/
def memRemove [DecidableEq Id] (m : MemStore Event Id) (id : Id) :
    Except EventStoreError (StoredEventList Event Id) × MemStore Event Id :=
  match m id with
  | none => (.error .aggregateIsNotExist, m)
  | some x => (.ok x, fun k => if k = id then none else m k)

/-! ### The concrete aggregate of `src/lib.rs`

`Slug`/`SlugRef` and `Url` are the owned/borrowed string pairs produced by
the `string_based_type!` macro of `src/string_based_type.rs`; `Stats` is the
aggregate, `ShortenerEvent` its event type. -/

/-- Owned `Slug` (`pub struct Slug(pub String)`). -/
structure Slug where
  val : String
deriving DecidableEq

/-- Borrowed `SlugRef` view (wraps `str`; same text, zero-copy in the
source). -/
structure SlugRef where
  val : String
deriving DecidableEq

/-- Owned `Url` (`pub struct Url(pub String)`). -/
structure Url where
  val : String
deriving DecidableEq

/-- `Slug::new` / `From<&S>`: build an owned slug from text. -/
def Slug.fromStr (s : String) : Slug := ⟨s⟩

/-- `SlugRef::from_str`: the borrowed view of the same text. -/
def SlugRef.fromStr (s : String) : SlugRef := ⟨s⟩

/-- `impl PartialEq<SlugRef> for Slug`: `self.0.eq(other.as_ref())`. -/
def slugEqSlugRef (o : Slug) (r : SlugRef) : Bool := o.val == r.val

/-- `impl PartialEq<Slug> for SlugRef`: `self.0.eq(other.as_str())`. -/
def slugRefEqSlug (r : SlugRef) (o : Slug) : Bool := r.val == o.val

/-- `impl ToOwned for SlugRef`: copy the viewed text into an owned slug. -/
def SlugRef.toOwned (r : SlugRef) : Slug := ⟨r.val⟩

/-- `ShortLinkStatEvent` of `src/lib.rs`. -/
inductive ShortLinkStatEvent where
  | redirect
deriving DecidableEq

/-- `ShortenerEvent` of `src/lib.rs`. -/
inductive ShortenerEvent where
  | create (slug : Slug) (url : Url)
  | shortLinkStatEvent (slug : Slug) (ev : ShortLinkStatEvent)
deriving DecidableEq

/-- `ShortLink` of `src/lib.rs`. -/
structure ShortLink where
  slug : Slug
  url : Url
deriving DecidableEq

/-- `Stats` of `src/lib.rs` (`redirects: u64` modelled as `Nat`). -/
structure Stats where
  link : ShortLink
  redirects : Nat
deriving DecidableEq

/-- `impl Default for Stats`: empty slug, empty url, zero redirects. -/
def statsDefault : Stats := ⟨⟨⟨""⟩, ⟨""⟩⟩, 0⟩

/-- `Stats::apply` of `src/lib.rs`: `Create` resets the link and the counter;
a `Redirect` increments the counter when the event's slug matches the
aggregate's identifier. -/
def statsApply (s : Stats) : ShortenerEvent → Stats
  | .create slug url => ⟨⟨slug, url⟩, 0⟩
  | .shortLinkStatEvent slug statEv =>
    if slug.val = s.link.slug.val then
      match statEv with
      | .redirect => { s with redirects := s.redirects + 1 }
    else s

/-- The `Aggregate` operations of `Stats`: `aggregate_id` is the link's slug,
identifier emptiness is text emptiness. -/
def statsOps : AggOps Stats ShortenerEvent Slug :=
  ⟨statsDefault, statsApply, fun s => s.link.slug, fun id => id.val.isEmpty⟩

/-! ### Slug-generation loop of `handle_create_short_link` (`src/lib.rs`)

The `None`-slug branch: starting from `bump = 0`, generate a candidate,
probe `is_exist`, return the candidate when absent, otherwise increment the
bump; when the bump reaches `u16::MAX` (65535) the source hits
`unreachable!` — modelled as `none`.  The store probe is abstracted as a
boolean predicate `ex` and the generator as a function of the bump (the
source passes the same url string each time). -/

/-- The generation loop; the fuel counts the increments still allowed before
the bump would reach 65535. -/
def slugGenLoop (ex : Slug → Bool) (gen : Nat → Slug) :
    Nat → Nat → Option Slug
  | fuel, bump =>
    if ex (gen bump) = false then some (gen bump)
    else
      match fuel with
      | 0 => none
      | f + 1 => slugGenLoop ex gen f (bump + 1)

/-- The whole `None` branch of `handle_create_short_link`: bumps 0 through
65534 may be probed; the increment to 65535 is fatal. -/
def createShortLinkSlug (ex : Slug → Bool) (gen : Nat → Slug) : Option Slug :=
  slugGenLoop ex gen 65534 0

/-! ### Base64 encoder (`src/base64.rs`) and slug generator (`src/gen.rs`) -/

/-- An `Alphabet` impl: its 62nd and 63rd symbols. -/
structure Alphabet where
  sixtySecond : Char
  sixtyThird : Char

/-- The URL-safe alphabet (`base64::Url`). -/
def urlAlphabet : Alphabet := ⟨'-', '_'⟩

/-- The standard alphabet (`base64::Std`). -/
def stdAlphabet : Alphabet := ⟨'+', '/'⟩

/-- `Alphabet::get_char_for_index`: sextet value to character; `None` for
values of 64 and above (in the source these fall through the `i8` match). -/
def getCharForIndex (a : Alphabet) (i : Nat) : Option Char :=
  if i ≤ 25 then some (Char.ofNat (i + 65))
  else if i ≤ 51 then some (Char.ofNat (i + 71))
  else if i ≤ 61 then some (Char.ofNat (i - 4))
  else if i = 62 then some a.sixtySecond
  else if i = 63 then some a.sixtyThird
  else none

/-- `split`: a chunk of 1–3 bytes into its sextet values. -/
def base64Split (chunk : List Nat) : List Nat :=
  match chunk with
  | [a] => [a >>> 2, (a &&& 3) <<< 4]
  | [a, b] => [a >>> 2, ((a &&& 3) <<< 4) ||| (b >>> 4), (b &&& 15) <<< 2]
  | [a, b, c] =>
    [a >>> 2, ((a &&& 3) <<< 4) ||| (b >>> 4),
      ((b &&& 15) <<< 2) ||| (c >>> 6), c &&& 63]
  | _ => []

/-- `encode_chunk`: four output characters, initialised to the padding
character `'='` and overwritten at each position where a sextet value maps to
an alphabet character. -/
def encodeChunk (a : Alphabet) (chunk : List Nat) : List Char :=
  (List.range 4).map fun i =>
    match chunk.get? i with
    | some v =>
      match getCharForIndex a v with
      | some c => c
      | none => '='
    | none => '='

/-- `data.chunks(3)` of the source's `encode`. -/
def chunks3 : List Nat → List (List Nat)
  | [] => []
  | [a] => [[a]]
  | [a, b] => [[a, b]]
  | a :: b :: c :: rest => [a, b, c] :: chunks3 rest

/-- `encode`: split each 3-byte chunk and flat-map `encode_chunk`. -/
def base64Encode (a : Alphabet) (data : List Nat) : List Char :=
  (((chunks3 data).map base64Split).map (encodeChunk a)).flatten

/-- `base64::Url::encode` producing a string. -/
def base64UrlEncode (data : List Nat) : String :=
  ⟨base64Encode urlAlphabet data⟩

/-- `SimplestSlugGenerator::generate`: 4 big-endian bytes of the sub-second
nanosecond jitter (a `u32`) followed by the 2 big-endian bytes of the `u16`
bump, base64-url encoded.  The nondeterministic clock reading is passed in as
`nanos`. -/
def simplestGenerate (nanos : Nat) (bump : Nat) : Slug :=
  let n := nanos % 4294967296
  let b := bump % 65536
  Slug.fromStr (base64UrlEncode
    [n / 16777216, n / 65536 % 256, n / 256 % 256, n % 256, b / 256, b % 256])

/-! ### Index contiguity predicate and helper lemmas -/

/-- The events of `l` carry the consecutive index values `n, n + 1, ...`. -/
def indexedFrom (n : Nat) : List (StoredEvent Event Id) → Prop
  | [] => True
  | e :: rest => e.index = n ∧ indexedFrom (n + 1) rest

instance indexedFromDec (n : Nat) :
    ∀ l : List (StoredEvent Event Id), Decidable (indexedFrom n l)
  | [] => isTrue trivial
  | e :: rest =>
    haveI : Decidable (indexedFrom (n + 1) rest) := indexedFromDec (n + 1) rest
    decidable_of_iff (e.index = n ∧ indexedFrom (n + 1) rest) Iff.rfl

theorem indexedFrom_append {l1 l2 : List (StoredEvent Event Id)} {n : Nat}
    (h1 : indexedFrom n l1) (h2 : indexedFrom (n + l1.length) l2) :
    indexedFrom n (l1 ++ l2) := by
  induction l1 generalizing n with
  | nil => simpa using h2
  | cons e rest ih =>
    obtain ⟨he, hrest⟩ := h1
    refine ⟨he, ih hrest ?_⟩
    have : n + 1 + rest.length = n + (e :: rest).length := by
      simp; omega
    rw [this]
    exact h2

theorem indexedFrom_withIndicesFrom (id : Id) (n : Nat) (es : List Event) :
    indexedFrom n (withIndicesFrom id n es) := by
  induction es generalizing n with
  | nil => trivial
  | cons e rest ih => exact ⟨rfl, ih (n + 1)⟩

theorem indexedFrom_get {n : Nat} {l : List (StoredEvent Event Id)}
    (h : indexedFrom n l) :
    ∀ i ev, l[i]? = some ev → ev.index = n + i := by
  induction l generalizing n with
  | nil => intro i ev hev; simp at hev
  | cons e rest ih =>
    intro i ev hev
    obtain ⟨he, hrest⟩ := h
    match i with
    | 0 =>
      simp at hev
      subst hev
      simpa using he
    | j + 1 =>
      simp at hev
      have := ih hrest j ev hev
      omega

theorem indexedFrom_index_lt {n : Nat} {l : List (StoredEvent Event Id)}
    (h : indexedFrom n l) : ∀ e ∈ l, e.index < n + l.length := by
  induction l generalizing n with
  | nil => intro e he; simp at he
  | cons a rest ih =>
    intro e he
    obtain ⟨ha, hrest⟩ := h
    rcases List.mem_cons.mp he with rfl | hmem
    · simp; omega
    · have := ih hrest e hmem
      simp
      omega

/-! ### Claim theorems -/

/-- C1: the claim says `check_consistency` returns `Ok` on every list whose
events share one aggregate identifier and carry the contiguous indices
`0, 1, 2, ...`.  The code instead reports the inconsistent-aggregate-id error
on the very first event of every non-empty list, because the comparison at
`src/cqrs/store.rs:175` fires when an event's identifier EQUALS the first
identifier.  Evaluated here at a perfectly uniform, contiguous one-event
list. -/
theorem checkConsistency_rejects_consistent_list :
    checkConsistency
      [(⟨⟨"a"⟩, 0, ShortenerEvent.shortLinkStatEvent ⟨"a"⟩ .redirect⟩ :
        StoredEvent ShortenerEvent Slug)]
      = .error .inconsistentEventAggregateId := rfl

/-- C8: for every text `s`, the owned identifier built from `s` and the
borrowed identifier view of `s` compare equal in both directions, and
converting the borrowed view back to an owned identifier gives the owned
identifier built from `s`; all three operations are total functions. -/
theorem slug_owned_borrowed_equivalence (s : String) :
    slugEqSlugRef (Slug.fromStr s) (SlugRef.fromStr s) = true
    ∧ slugRefEqSlug (SlugRef.fromStr s) (Slug.fromStr s) = true
    ∧ (SlugRef.fromStr s).toOwned = Slug.fromStr s := by
  refine ⟨?_, ?_, rfl⟩ <;>
    simp [slugEqSlugRef, slugRefEqSlug, Slug.fromStr, SlugRef.fromStr]

/-- C4: committing a finalized stored-event list to the in-memory store and
then fetching by the list's aggregate identifier succeeds and returns the
committed list itself. -/
theorem mem_store_round_trip [DecidableEq Id] (m : MemStore Event Id)
    (L : StoredEventList Event Id) :
    memFetch (memCommit m L) (listAggregateId L) = .ok L := by
  have hne : L.val.isEmpty = false := by
    cases hL : L.val with
    | nil => exact absurd hL L.prop
    | cons a t => simp
  simp [memFetch, memCommit, hne]

/-- C5: on an identifier absent from the in-memory store, `fetch` and
`remove` fail with the aggregate-does-not-exist error, `is_exist` returns
`false`, and neither call changes the map. -/
theorem mem_store_absent_id [DecidableEq Id] (m : MemStore Event Id) (id : Id)
    (h : m id = none) :
    memFetch m id = .error .aggregateIsNotExist
    ∧ memIsExist m id = false
    ∧ (memRemove m id).1 = .error .aggregateIsNotExist
    ∧ (memRemove m id).2 = m := by
  refine ⟨?_, ?_, ?_, ?_⟩ <;> simp [memFetch, memIsExist, memRemove, h]

/-- C5 witness: the empty store at the concrete identifier `"x"`. -/
theorem mem_store_absent_id_witness :
    memFetch (fun _ => none : MemStore ShortenerEvent Slug) ⟨"x"⟩
        = .error .aggregateIsNotExist
    ∧ memIsExist (fun _ => none : MemStore ShortenerEvent Slug) ⟨"x"⟩ = false
    ∧ (memRemove (fun _ => none : MemStore ShortenerEvent Slug) ⟨"x"⟩).1
        = .error .aggregateIsNotExist
    ∧ (memRemove (fun _ => none : MemStore ShortenerEvent Slug) ⟨"x"⟩).2
        = (fun _ => none : MemStore ShortenerEvent Slug) :=
  mem_store_absent_id (fun _ => none) ⟨"x"⟩ rfl

/-- C2: `append_all` on an empty raw list fails with the empty-event-list
error on no events; fails with the invalid-initial-event error when applying
the first event to a default aggregate yields an empty identifier; and
otherwise succeeds with every input event stored under the derived identifier
at consecutive indices 0, 1, ... in input order. -/
theorem append_all_on_empty (ops : AggOps Agg Event Id) (events : List Event) :
    (events = [] → rawAppendAll ops [] events = .error .emptyEventList)
    ∧ (∀ e0 rest, events = e0 :: rest →
        (ops.idIsEmpty (ops.aggregateId (ops.apply ops.dflt e0)) = true →
          rawAppendAll ops [] events = .error .invalidInitialEvent)
        ∧ (ops.idIsEmpty (ops.aggregateId (ops.apply ops.dflt e0)) = false →
          ∃ L, rawAppendAll ops [] events = .ok L
            ∧ L.val = withIndicesFrom
                (ops.aggregateId (ops.apply ops.dflt e0)) 0 events)) := by
  constructor
  · rintro rfl; rfl
  · rintro e0 rest rfl
    constructor
    · intro hEmpty
      simp [rawAppendAll, initialAggregateId, hEmpty]
    · intro hEmpty
      refine ⟨⟨appendAllUnchecked [] (ops.aggregateId (ops.apply ops.dflt e0))
          (e0 :: rest), ?_⟩, ?_, ?_⟩
      · rw [appendAllUnchecked_eq]
        intro hcontra
        have := congrArg List.length hcontra
        simp [withIndicesFrom] at this
      · simp [rawAppendAll, initialAggregateId, hEmpty]
      · have h := appendAllUnchecked_eq
          ([] : List (StoredEvent Event Id))
          (ops.aggregateId (ops.apply ops.dflt e0)) (e0 :: rest)
        simpa using h

/-- C2 witness: a concrete one-event sequence on the `Stats` aggregate, plus
the empty sequence. -/
theorem append_all_on_empty_witness :
    rawAppendAll statsOps [] ([] : List ShortenerEvent)
        = .error .emptyEventList
    ∧ (rawAppendAll statsOps []
          [ShortenerEvent.create ⟨"ab"⟩ ⟨"http u"⟩]).map Subtype.val
        = .ok (withIndicesFrom (⟨"ab"⟩ : Slug) 0
            [ShortenerEvent.create ⟨"ab"⟩ ⟨"http u"⟩]) := by
  constructor
  · exact (append_all_on_empty statsOps []).1 rfl
  · obtain ⟨L, h1, h2⟩ := ((append_all_on_empty statsOps
      [ShortenerEvent.create ⟨"ab"⟩ ⟨"http u"⟩]).2
        (ShortenerEvent.create ⟨"ab"⟩ ⟨"http u"⟩) [] rfl).2 (by decide)
    rw [h1, Except.map, h2]
    rfl

/-- C7: every list reachable by the appending operations keeps the invariant
that the event at position `i` carries index `i`: if it holds of `l`, it holds
after `append_unchecked` (the core of both `StoredEventRawList::append` and
`StoredEventList::append`) and after the `append_all` loop, for every
identifier and every event sequence; the positional statement is given both
structurally and through positional lookup. -/
theorem append_preserves_index_contiguity (l : List (StoredEvent Event Id))
    (h : indexedFrom 0 l) :
    (∀ id e, indexedFrom 0 (rawAppendUnchecked l id e).2)
    ∧ (∀ id es, indexedFrom 0 (appendAllUnchecked l id es))
    ∧ (∀ (id : Id) (es : List Event) (i : Nat) (ev : StoredEvent Event Id),
        (appendAllUnchecked l id es)[i]? = some ev → ev.index = i) := by
  have hAll : ∀ (id : Id) (es : List Event),
      indexedFrom 0 (appendAllUnchecked l id es) := by
    intro id es
    rw [appendAllUnchecked_eq]
    refine indexedFrom_append h ?_
    have := indexedFrom_withIndicesFrom id l.length es
    simpa using this
  refine ⟨?_, hAll, ?_⟩
  · intro id e
    have := hAll id [e]
    simpa [appendAllUnchecked, rawAppendUnchecked] using this
  · intro id es i ev hev
    have := indexedFrom_get (hAll id es) i ev hev
    simpa using this

/-- C7 witness: a concrete already-contiguous one-event list on the `Stats`
aggregate, extended by `append_unchecked` and by a two-event `append_all`. -/
theorem append_preserves_index_contiguity_witness :
    indexedFrom 0 (rawAppendUnchecked
      [(⟨⟨"a"⟩, 0, ShortenerEvent.shortLinkStatEvent ⟨"a"⟩ .redirect⟩ :
        StoredEvent ShortenerEvent Slug)] ⟨"a"⟩
      (ShortenerEvent.shortLinkStatEvent ⟨"a"⟩ .redirect)).2
    ∧ indexedFrom 0 (appendAllUnchecked
      [(⟨⟨"a"⟩, 0, ShortenerEvent.shortLinkStatEvent ⟨"a"⟩ .redirect⟩ :
        StoredEvent ShortenerEvent Slug)] ⟨"a"⟩
      [ShortenerEvent.shortLinkStatEvent ⟨"a"⟩ .redirect,
       ShortenerEvent.shortLinkStatEvent ⟨"a"⟩ .redirect]) := by
  have h := append_preserves_index_contiguity
    [(⟨⟨"a"⟩, 0, ShortenerEvent.shortLinkStatEvent ⟨"a"⟩ .redirect⟩ :
      StoredEvent ShortenerEvent Slug)] (by decide)
  exact ⟨h.1 ⟨"a"⟩ (ShortenerEvent.shortLinkStatEvent ⟨"a"⟩ .redirect),
    h.2.1 ⟨"a"⟩ [ShortenerEvent.shortLinkStatEvent ⟨"a"⟩ .redirect,
      ShortenerEvent.shortLinkStatEvent ⟨"a"⟩ .redirect]⟩

theorem foldApply_cons (ops : AggOps Agg Event Id) (acc : Agg)
    (e : StoredEvent Event Id) (l : List (StoredEvent Event Id)) :
    foldApply ops acc (e :: l) = foldApply ops (ops.apply acc e.event) l := rfl

theorem snapshotAtGo_eq_fold_take (ops : AggOps Agg Event Id) (k : Nat) :
    ∀ (l : List (StoredEvent Event Id)) (n : Nat) (acc : Agg),
    indexedFrom n l → n ≤ k → k < n + l.length →
    snapshotAtGo ops k acc l = foldApply ops acc (l.take (k + 1 - n)) := by
  intro l
  induction l with
  | nil => intro n acc _ hnk hk; simp at hk; omega
  | cons e rest ih =>
    intro n acc hidx hnk hk
    obtain ⟨he, hrest⟩ := hidx
    by_cases hek : n = k
    · subst hek
      simp [snapshotAtGo, he, foldApply]
    · have hlt : n < k := lt_of_le_of_ne hnk hek
      have hne : e.index ≠ k := by omega
      have htake : k + 1 - n = (k + 1 - (n + 1)) + 1 := by omega
      rw [htake]
      simp only [snapshotAtGo, List.take_succ_cons, foldApply_cons]
      rw [if_neg hne]
      refine ih (n + 1) (ops.apply acc e.event) hrest (by omega) ?_
      simp at hk ⊢
      omega

theorem snapshotAtGo_no_target (ops : AggOps Agg Event Id) (k : Nat) :
    ∀ (l : List (StoredEvent Event Id)) (acc : Agg),
    (∀ e ∈ l, e.index ≠ k) →
    snapshotAtGo ops k acc l = foldApply ops acc l := by
  intro l
  induction l with
  | nil => intro acc _; rfl
  | cons e rest ih =>
    intro acc h
    have hne : e.index ≠ k := h e (List.mem_cons_self e rest)
    simp only [snapshotAtGo, foldApply_cons]
    rw [if_neg hne]
    exact ih (ops.apply acc e.event) fun x hx => h x (List.mem_cons_of_mem e hx)

/-- C3: on a non-empty index-contiguous raw list, `snapshot` returns the fold
of every event into a default aggregate, with index `length - 1`; for every
`k` with `k + 1 ≤ length`, `snapshot_at k` returns the fold of only the
events `0..=k`, with index `k`; and `snapshot_at k` on any raw list shorter
than `k + 1` returns `None`. -/
theorem snapshot_fold (ops : AggOps Agg Event Id) :
    (∀ l : List (StoredEvent Event Id), l ≠ [] → indexedFrom 0 l →
      rawSnapshot ops l = some ⟨foldApply ops ops.dflt l, l.length - 1⟩
      ∧ ∀ k, k + 1 ≤ l.length →
          rawSnapshotAt ops l k
            = some ⟨foldApply ops ops.dflt (l.take (k + 1)), k⟩)
    ∧ (∀ (l : List (StoredEvent Event Id)) (k : Nat), l.length < k + 1 →
        rawSnapshotAt ops l k = none) := by
  constructor
  · intro l hne hidx
    have hlen : 1 ≤ l.length := by
      cases l with
      | nil => exact absurd rfl hne
      | cons a t => simp
    constructor
    · simp [rawSnapshot, snapshotUnchecked, Nat.not_lt.mpr hlen]
    · intro k hk
      have hguard : ¬(l.length < 1 ∨ l.length - 1 < k) := by omega
      simp only [rawSnapshotAt, if_neg hguard, snapshotAtUnchecked]
      have := snapshotAtGo_eq_fold_take ops k l 0 ops.dflt hidx (Nat.zero_le k)
        (by omega)
      simp only [Nat.sub_zero] at this
      rw [this]
  · intro l k hk
    have hguard : l.length < 1 ∨ l.length - 1 < k := by omega
    unfold rawSnapshotAt
    rw [if_pos hguard]

/-- C3 witness: a concrete two-event contiguous list on the `Stats`
aggregate, with `k = 0` in bounds and `k = 5` out of bounds. -/
theorem snapshot_fold_witness :
    rawSnapshot statsOps
      [(⟨⟨"a"⟩, 0, ShortenerEvent.create ⟨"a"⟩ ⟨"u"⟩⟩ :
          StoredEvent ShortenerEvent Slug),
        ⟨⟨"a"⟩, 1, ShortenerEvent.shortLinkStatEvent ⟨"a"⟩ .redirect⟩]
      = some ⟨foldApply statsOps statsOps.dflt
          [⟨⟨"a"⟩, 0, ShortenerEvent.create ⟨"a"⟩ ⟨"u"⟩⟩,
            ⟨⟨"a"⟩, 1, ShortenerEvent.shortLinkStatEvent ⟨"a"⟩ .redirect⟩], 1⟩
    ∧ rawSnapshotAt statsOps
      [(⟨⟨"a"⟩, 0, ShortenerEvent.create ⟨"a"⟩ ⟨"u"⟩⟩ :
          StoredEvent ShortenerEvent Slug),
        ⟨⟨"a"⟩, 1, ShortenerEvent.shortLinkStatEvent ⟨"a"⟩ .redirect⟩] 0
      = some ⟨foldApply statsOps statsOps.dflt
          ([(⟨⟨"a"⟩, 0, ShortenerEvent.create ⟨"a"⟩ ⟨"u"⟩⟩ :
              StoredEvent ShortenerEvent Slug),
            ⟨⟨"a"⟩, 1,
              ShortenerEvent.shortLinkStatEvent ⟨"a"⟩ .redirect⟩].take 1), 0⟩
    ∧ rawSnapshotAt statsOps
      [(⟨⟨"a"⟩, 0, ShortenerEvent.create ⟨"a"⟩ ⟨"u"⟩⟩ :
          StoredEvent ShortenerEvent Slug)] 5 = none := by
  have h := snapshot_fold statsOps
  have h1 := h.1
    [(⟨⟨"a"⟩, 0, ShortenerEvent.create ⟨"a"⟩ ⟨"u"⟩⟩ :
        StoredEvent ShortenerEvent Slug),
      ⟨⟨"a"⟩, 1, ShortenerEvent.shortLinkStatEvent ⟨"a"⟩ .redirect⟩]
    (by decide) (by decide)
  exact ⟨h1.1, h1.2 0 (by decide),
    h.2 [⟨⟨"a"⟩, 0, ShortenerEvent.create ⟨"a"⟩ ⟨"u"⟩⟩] 5 (by decide)⟩

/-- C10: on a finalized list, the public `snapshot_at` performs no bound
check: for a requested index `k` at or beyond the list length it still
returns a snapshot — its aggregate is the fold of ALL events of the list and
its index field is the requested `k` itself. -/
theorem finalized_snapshot_at_beyond_length (ops : AggOps Agg Event Id)
    (L : StoredEventList Event Id) (k : Nat) (hk : L.val.length < k + 1)
    (hidx : indexedFrom 0 L.val) :
    listSnapshotAt ops L k = ⟨foldApply ops ops.dflt L.val, k⟩ := by
  unfold listSnapshotAt snapshotAtUnchecked
  have hmem : ∀ e ∈ L.val, e.index ≠ k := by
    intro e he
    have := indexedFrom_index_lt hidx e he
    omega
  rw [snapshotAtGo_no_target ops k L.val ops.dflt hmem]

/-- C10 witness: a concrete one-event finalized list queried at the
out-of-range index 5. -/
theorem finalized_snapshot_at_beyond_length_witness :
    listSnapshotAt statsOps
      (⟨[⟨⟨"a"⟩, 0, ShortenerEvent.create ⟨"a"⟩ ⟨"u"⟩⟩], by decide⟩ :
        StoredEventList ShortenerEvent Slug) 5
      = ⟨foldApply statsOps statsOps.dflt
          [⟨⟨"a"⟩, 0, ShortenerEvent.create ⟨"a"⟩ ⟨"u"⟩⟩], 5⟩ :=
  finalized_snapshot_at_beyond_length statsOps
    ⟨[⟨⟨"a"⟩, 0, ShortenerEvent.create ⟨"a"⟩ ⟨"u"⟩⟩], by decide⟩ 5
    (by decide) (by decide)

theorem slugGenLoop_some_absent (ex : Slug → Bool) (gen : Nat → Slug) :
    ∀ (fuel bump : Nat) (s : Slug),
    slugGenLoop ex gen fuel bump = some s → ex s = false := by
  intro fuel
  induction fuel with
  | zero =>
    intro bump s h
    unfold slugGenLoop at h
    by_cases hex : ex (gen bump) = false
    · rw [if_pos hex] at h
      cases h
      exact hex
    · rw [if_neg hex] at h
      cases h
  | succ f ih =>
    intro bump s h
    unfold slugGenLoop at h
    by_cases hex : ex (gen bump) = false
    · rw [if_pos hex] at h
      cases h
      exact hex
    · rw [if_neg hex] at h
      exact ih (bump + 1) s h

theorem slugGenLoop_finds_free (ex : Slug → Bool) (gen : Nat → Slug) :
    ∀ (fuel bump : Nat),
    (∃ d, d ≤ fuel ∧ ex (gen (bump + d)) = false) →
    ∃ s, slugGenLoop ex gen fuel bump = some s := by
  intro fuel
  induction fuel with
  | zero =>
    intro bump ⟨d, hd, hfree⟩
    have hd0 : d = 0 := Nat.le_zero.mp hd
    subst hd0
    simp only [Nat.add_zero] at hfree
    exact ⟨gen bump, by unfold slugGenLoop; rw [if_pos hfree]⟩
  | succ f ih =>
    intro bump ⟨d, hd, hfree⟩
    by_cases hex : ex (gen bump) = false
    · exact ⟨gen bump, by unfold slugGenLoop; rw [if_pos hex]⟩
    · have hd0 : d ≠ 0 := by
        rintro rfl
        simp only [Nat.add_zero] at hfree
        exact hex hfree
      obtain ⟨d2, rfl⟩ := Nat.exists_eq_succ_of_ne_zero hd0
      obtain ⟨s, hs⟩ := ih (bump + 1)
        ⟨d2, by omega, by have := hfree; rw [show bump + 1 + d2 = bump + (d2 + 1) by omega]; exact this⟩
      exact ⟨s, by unfold slugGenLoop; rw [if_neg hex]; exact hs⟩

/-- C6: when identifier `X` is present in the store (`is_exist X` is true),
the slug-generation loop of `handle_create_short_link` never returns `X`:
every slug it returns was reported absent by the probe, and whenever some
bump value within the 16-bit range 0..=65534 yields an absent slug the loop
terminates by returning such an absent slug (running out of the bump range is
the fatal `unreachable!`, modelled as `none`, never a returned value). -/
theorem generation_loop_avoids_collisions (ex : Slug → Bool) (gen : Nat → Slug)
    (X : Slug) (hX : ex X = true) :
    (∀ s, createShortLinkSlug ex gen = some s → ex s = false ∧ s ≠ X)
    ∧ ((∃ b, b ≤ 65534 ∧ ex (gen b) = false) →
        ∃ s, createShortLinkSlug ex gen = some s ∧ ex s = false) := by
  constructor
  · intro s hs
    have habs := slugGenLoop_some_absent ex gen 65534 0 s hs
    refine ⟨habs, ?_⟩
    rintro rfl
    rw [hX] at habs
    cases habs
  · rintro ⟨b, hb, hfree⟩
    obtain ⟨s, hs⟩ := slugGenLoop_finds_free ex gen 65534 0
      ⟨b, hb, by simpa using hfree⟩
    exact ⟨s, hs, slugGenLoop_some_absent ex gen 65534 0 s hs⟩

/-- C6 witness: a store holding only the slug `"t"` and a generator whose
bump-0 candidate collides with it while bump 1 is free; the loop returns the
bump-1 slug `"u"`, which is absent and differs from the taken `"t"`. -/
theorem generation_loop_avoids_collisions_witness :
    (fun s => s == Slug.fromStr "t") (Slug.fromStr "u") = false
    ∧ Slug.fromStr "u" ≠ Slug.fromStr "t" :=
  (generation_loop_avoids_collisions
    (fun s => s == Slug.fromStr "t")
    (fun b => if b = 0 then Slug.fromStr "t" else Slug.fromStr "u")
    (Slug.fromStr "t") (by decide)).1 (Slug.fromStr "u") rfl

theorem urlChar_of_small : ∀ v : Fin 64,
    (match getCharForIndex urlAlphabet v.val with
     | some c => c
     | none => '=') ≠ '=' := by decide

theorem urlChar_ne_pad (v : Nat) (h : v < 64) :
    (match getCharForIndex urlAlphabet v with
     | some c => c
     | none => '=') ≠ '=' :=
  urlChar_of_small ⟨v, h⟩

theorem encodeChunk_length (al : Alphabet) (ch : List Nat) :
    (encodeChunk al ch).length = 4 := by
  simp [encodeChunk]

theorem encodeChunk_eq_map4 (al : Alphabet) (v0 v1 v2 v3 : Nat) :
    encodeChunk al [v0, v1, v2, v3] =
      [(match getCharForIndex al v0 with | some c => c | none => '='),
       (match getCharForIndex al v1 with | some c => c | none => '='),
       (match getCharForIndex al v2 with | some c => c | none => '='),
       (match getCharForIndex al v3 with | some c => c | none => '=')] := rfl

theorem encodeChunk_split3_no_pad (a b c : Nat)
    (ha : a < 256) (hb : b < 256) (hc : c < 256) :
    '=' ∉ encodeChunk urlAlphabet (base64Split [a, b, c]) := by
  have h0 : a >>> 2 < 64 := by rw [Nat.shiftRight_eq_div_pow]; omega
  have ha3 : a &&& 3 < 4 := lt_of_le_of_lt Nat.and_le_right (by norm_num)
  have h1a : (a &&& 3) <<< 4 < 64 := by
    rw [Nat.shiftLeft_eq]
    norm_num
    omega
  have h1b : b >>> 4 < 64 := by rw [Nat.shiftRight_eq_div_pow]; omega
  have h1 : ((a &&& 3) <<< 4) ||| (b >>> 4) < 64 := by
    have h64 : (64 : Nat) = 2 ^ 6 := by norm_num
    rw [h64] at h1a h1b ⊢
    exact Nat.or_lt_two_pow h1a h1b
  have hb15 : b &&& 15 < 16 := lt_of_le_of_lt Nat.and_le_right (by norm_num)
  have h2a : (b &&& 15) <<< 2 < 64 := by
    rw [Nat.shiftLeft_eq]
    norm_num
    omega
  have h2b : c >>> 6 < 64 := by rw [Nat.shiftRight_eq_div_pow]; omega
  have h2 : ((b &&& 15) <<< 2) ||| (c >>> 6) < 64 := by
    have h64 : (64 : Nat) = 2 ^ 6 := by norm_num
    rw [h64] at h2a h2b ⊢
    exact Nat.or_lt_two_pow h2a h2b
  have h3 : c &&& 63 < 64 := lt_of_le_of_lt Nat.and_le_right (by norm_num)
  show '=' ∉ encodeChunk urlAlphabet
    [a >>> 2, ((a &&& 3) <<< 4) ||| (b >>> 4),
      ((b &&& 15) <<< 2) ||| (c >>> 6), c &&& 63]
  rw [encodeChunk_eq_map4]
  intro hmem
  simp only [List.mem_cons, List.not_mem_nil, or_false] at hmem
  rcases hmem with h | h | h | h
  · exact urlChar_ne_pad _ h0 h.symm
  · exact urlChar_ne_pad _ h1 h.symm
  · exact urlChar_ne_pad _ h2 h.symm
  · exact urlChar_ne_pad _ h3 h.symm

/-- C9: for every clock jitter value and every bump, the reference slug
generator produces a slug of exactly 8 characters with no `'='` padding: the
encoded buffer is 6 bytes (4 big-endian jitter bytes then the big-endian
bump), and the encoder emits 4 characters per full 3-byte chunk, using `'='`
only for chunks shorter than 3 bytes. -/
theorem generated_slug_eight_no_padding (nanos bump : Nat) :
    (simplestGenerate nanos bump).val.length = 8
    ∧ '=' ∉ (simplestGenerate nanos bump).val.data := by
  have hsplit : base64Encode urlAlphabet
      [nanos % 4294967296 / 16777216, nanos % 4294967296 / 65536 % 256,
        nanos % 4294967296 / 256 % 256, nanos % 4294967296 % 256,
        bump % 65536 / 256, bump % 65536 % 256]
      = encodeChunk urlAlphabet (base64Split
          [nanos % 4294967296 / 16777216, nanos % 4294967296 / 65536 % 256,
            nanos % 4294967296 / 256 % 256])
        ++ encodeChunk urlAlphabet (base64Split
          [nanos % 4294967296 % 256, bump % 65536 / 256,
            bump % 65536 % 256]) := by
    simp [base64Encode, chunks3]
  constructor
  · show (base64Encode urlAlphabet _).length = 8
    rw [hsplit]
    simp [encodeChunk_length]
  · show '=' ∉ base64Encode urlAlphabet _
    rw [hsplit]
    intro hmem
    rcases List.mem_append.mp hmem with h | h
    · exact encodeChunk_split3_no_pad _ _ _ (by omega) (by omega) (by omega) h
    · exact encodeChunk_split3_no_pad _ _ _ (by omega) (by omega) (by omega) h

end Shortener
